import Mathlib

/-!
Verification of the fCATpy job-construction, output-mode and aggregation logic.

The Python sources `fcat/searchOrtho.py` and `fcatpy/calcCutoff.py` are shallowly
embedded below: pure string/list manipulations become Lean functions on
`String`/`List`, python dictionaries become association lists, filesystem reads
become lookups in an explicit file-system value, `sys.exit` and uncaught python
exceptions become `Except.error`, and float arithmetic is modelled over `ℚ`.
-/

namespace PyModel

/-- Model of python `str.split(c)` for a one-character separator, on the
character list of a string: `'a|bc'.split('|') = ['a','bc']`, `''.split('|') = ['']`. -/
def splitOnChar (c : Char) : List Char → List (List Char)
  | [] => [[]]
  | x :: xs =>
    let r := splitOnChar c xs
    if x = c then [] :: r
    else
      match r with
      | [] => [[x]]
      | y :: ys => (x :: y) :: ys

/-- python `s.split(c)` as a list of strings. -/
def pySplit (s : String) (c : Char) : List String :=
  (splitOnChar c s.data).map String.mk

/-- `splitOnChar` never returns an empty list, so python's `s.split(c)[0]`
and `s.split(c)[-1]` are total. -/
theorem splitOnChar_ne_nil (c : Char) (l : List Char) : splitOnChar c l ≠ [] := by
  cases l with
  | nil => simp [splitOnChar]
  | cons x xs =>
    simp only [splitOnChar]
    split
    · simp
    · split <;> simp

theorem pySplit_ne_nil (s : String) (c : Char) : pySplit s c ≠ [] := by
  simp only [pySplit, ne_eq, List.map_eq_nil_iff]
  exact splitOnChar_ne_nil c s.data

/-- `isPrefixL p l` is true when `p` is a prefix of `l` (helper for the substring test). -/
def isPrefixL : List Char → List Char → Bool
  | [], _ => true
  | _ :: _, [] => false
  | a :: ps, b :: ls => a == b && isPrefixL ps ls

/-- `containsSub l p` is true when `p` occurs as a contiguous sublist of `l`. -/
def containsSub : List Char → List Char → Bool
  | [], p => isPrefixL p []
  | l@(_ :: xs), p => isPrefixL p l || containsSub xs p

/-- Model of python's substring test `needle in hay`. -/
def pyIn (needle hay : String) : Bool :=
  containsSub hay.data needle.data

/-- Association-list lookup: the model of python dictionary indexing `d[k]`
(`none` = `KeyError`). -/
def alookup {α : Type} (k : String) : List (String × α) → Option α
  | [] => none
  | (k2, v) :: rest => if k2 = k then some v else alookup k rest

theorem alookup_nil {α : Type} (k : String) : alookup (α := α) k [] = none := rfl

theorem alookup_cons {α : Type} (k k2 : String) (v : α) (rest : List (String × α)) :
    alookup k ((k2, v) :: rest) = if k2 = k then some v else alookup k rest := rfl

/-- python `statistics.mean` over a list of exact rationals
(`none` models the `StatisticsError` raised on an empty sample). -/
def pyMean (l : List ℚ) : Option ℚ :=
  if l.isEmpty then none else some (l.sum / l.length)

/-- python float division (`none` models `ZeroDivisionError`). -/
def pyDiv (a b : ℚ) : Option ℚ :=
  if b = 0 then none else some (a / b)

end PyModel


namespace SearchOrtho

/-- The part of the filesystem state that `checkResult` in `fcat/searchOrtho.py`
inspects and mutates: the per-query output directory
`<outDir>/fcatOutput/<coreSet>/<queryID>` (`fcatOut`), the final aggregated
artifact `fcatOut/phyloprofileOutput/mode1.phyloprofile`, and the raw-result
archive `fcatOut/fdogOutput.tar.gz`. -/
structure FcatOutState where
  dirExists : Bool
  finalExists : Bool
  archiveExists : Bool
deriving DecidableEq

/-- `shutil.rmtree(fcatOut)`: the whole per-query tree is removed, so the final
artifact and the archive inside it are gone as well. -/
def rmtree (_ : FcatOutState) : FcatOutState := ⟨false, false, false⟩

/-- Embeds `checkResult(fcatOut, force)` (searchOrtho.py lines 433-447).
Returns the status (0 = start fresh, 1 = resume from archive, 2 = final
artifact present) together with the filesystem state after the call. -/
def checkResult (st : FcatOutState) (force : Bool) : ℕ × FcatOutState :=
  if force then
    (0, if st.dirExists then rmtree st else st)
  else
    if !st.finalExists then
      if st.archiveExists then (1, st)
      else (0, if st.dirExists then rmtree st else st)
    else
      (2, st)

/-- Embeds `outputMode(outDir, coreSet, queryID, force, approach)`
(searchOrtho.py lines 160-170).  The argument is the existence of the
`<coreSet>_<approach>.phyloprofile` marker in the phyloprofile directory.
Mode 3 = create fresh and write header, mode 1 = truncate and recreate
(overwrite), mode 0 = skip all aggregation writes. -/
def outputMode (approachFileExists force : Bool) : ℕ :=
  if !approachFileExists then 3
  else if force then 1 else 0

/-- Claim C1: the output-mode decision of searchOrtho (`checkResult` plus
`outputMode`) follows exactly this precedence: with `force`, any existing
final artifact is discarded (the per-query tree is removed, status 0) and
recreated with a header (mode 3 after deletion; `outputMode` likewise answers
overwrite-mode 1 whenever the marker survives with `force` set), so force wins
over an existing final artifact; with the archive present and the final
artifact absent, the run resumes via the archive path (status 1, Append);
with neither present the artifact is created fresh with a header (status 0,
mode 3, Fresh); with the final artifact present and no force, aggregation is
skipped entirely (status 2, and mode 0 at `outputMode` level). -/
theorem C1_output_mode_precedence (st : FcatOutState) (f : Bool)
    (hwf : st.finalExists = true → st.dirExists = true) :
    ((checkResult st true).1 = 0 ∧ (checkResult st true).2.finalExists = false ∧
      outputMode (checkResult st true).2.finalExists true = 3 ∧
      outputMode true true = 1) ∧
    (st.finalExists = false → st.archiveExists = true → (checkResult st false).1 = 1) ∧
    (st.finalExists = false → st.archiveExists = false →
      (checkResult st false).1 = 0 ∧ outputMode st.finalExists f = 3) ∧
    (st.finalExists = true → (checkResult st false).1 = 2 ∧ outputMode true false = 0) := by
  rcases st with ⟨d, fi, a⟩
  revert hwf
  cases d <;> cases fi <;> cases a <;> cases f <;> decide

/-- Witness for C1 at a concrete state: final artifact and archive both
present inside an existing directory. -/
theorem C1_output_mode_precedence_witness :
    ((⟨true, true, true⟩ : FcatOutState).finalExists = true →
      (⟨true, true, true⟩ : FcatOutState).dirExists = true) ∧
    (((checkResult ⟨true, true, true⟩ true).1 = 0 ∧
      (checkResult ⟨true, true, true⟩ true).2.finalExists = false ∧
      outputMode (checkResult ⟨true, true, true⟩ true).2.finalExists true = 3 ∧
      outputMode true true = 1) ∧
    ((⟨true, true, true⟩ : FcatOutState).finalExists = false →
      (⟨true, true, true⟩ : FcatOutState).archiveExists = true →
      (checkResult ⟨true, true, true⟩ false).1 = 1) ∧
    ((⟨true, true, true⟩ : FcatOutState).finalExists = false →
      (⟨true, true, true⟩ : FcatOutState).archiveExists = false →
      (checkResult ⟨true, true, true⟩ false).1 = 0 ∧
        outputMode (⟨true, true, true⟩ : FcatOutState).finalExists false = 3) ∧
    ((⟨true, true, true⟩ : FcatOutState).finalExists = true →
      (checkResult ⟨true, true, true⟩ false).1 = 2 ∧ outputMode true false = 0)) :=
  ⟨fun h => h, C1_output_mode_precedence ⟨true, true, true⟩ false (fun h => h)⟩

/-- Claim C10 as stated is false at a concrete input: on a first run the
per-query directory does not exist at all, `checkResult` returns status 0 and
deletes nothing, so the "otherwise the status is 1 or 2" clause fails. -/
theorem C10_counterexample :
    (checkResult ⟨false, false, false⟩ false).1 = 0 ∧
    (checkResult ⟨false, false, false⟩ false).2 = ⟨false, false, false⟩ ∧
    ¬((checkResult ⟨false, false, false⟩ false).1 = 1 ∨
      (checkResult ⟨false, false, false⟩ false).1 = 2) := by
  decide

/-- Claim C10 (amended): `checkResult` deletes the per-query tree and returns
status 0 in exactly two cases — force with the directory existing (even if the
archive is present inside it), and no force with the directory existing but
containing neither the final artifact nor the archive; if the directory exists
and neither case applies, it is left unchanged with status 1 (archive present,
final artifact absent) or 2 (final artifact present); if the directory does
not exist, the status is 0 and nothing is deleted. -/
theorem C10_checkResult_cases (st : FcatOutState) (force : Bool)
    (hwf1 : st.finalExists = true → st.dirExists = true)
    (hwf2 : st.archiveExists = true → st.dirExists = true) :
    (((checkResult st force).1 = 0 ∧ (checkResult st force).2 = rmtree st ∧
        st.dirExists = true) ↔
      ((force = true ∧ st.dirExists = true) ∨
       (force = false ∧ st.dirExists = true ∧ st.finalExists = false ∧
        st.archiveExists = false))) ∧
    (force = false → st.dirExists = true → st.finalExists = false →
      st.archiveExists = true →
      (checkResult st false).1 = 1 ∧ (checkResult st false).2 = st) ∧
    (force = false → st.finalExists = true →
      (checkResult st false).1 = 2 ∧ (checkResult st false).2 = st) ∧
    (st.dirExists = false → (checkResult st force).1 = 0 ∧
      (checkResult st force).2 = st) := by
  rcases st with ⟨d, fi, a⟩
  cases d <;> cases fi <;> cases a <;> cases force <;>
    first
    | exact absurd (hwf1 rfl) (by decide)
    | exact absurd (hwf2 rfl) (by decide)
    | exact ⟨by decide, by decide, by decide, by decide⟩

/-- Witness for the amended C10 at a concrete state: existing directory with
an archive but no final artifact, no force. -/
theorem C10_checkResult_cases_witness :
    (checkResult ⟨true, false, true⟩ false).1 = 1 ∧
    (checkResult ⟨true, false, true⟩ false).2 = ⟨true, false, true⟩ :=
  (C10_checkResult_cases ⟨true, false, true⟩ false (fun _ => rfl) (fun _ => rfl)).2.1
    rfl rfl rfl rfl

end SearchOrtho

/-- A fasta sequence record as yielded by `SeqIO.parse`. -/
structure SeqRecord where
  id : String
  seq : String
deriving DecidableEq

namespace SearchOrtho

/-- The trailing loop of `checkRefspec`: the first element of `refspecList`
that is contained in `coreSpec`, or `''` when none is. -/
def firstMatch : List String → List String → String
  | [], _ => ""
  | r :: rest, coreSpec => if r ∈ coreSpec then r else firstMatch rest coreSpec

/-- The first loop of `checkRefspec`: collect `s.id.split('|')[1]` for every
member record, in order; `Except.error` models the python `IndexError` raised
on a member header that has no second pipe field. -/
def collectSpecies : List SeqRecord → Except String (List String)
  | [] => .ok []
  | s :: rest =>
    match (PyModel.pySplit s.id '|')[1]? with
    | some r =>
      match collectSpecies rest with
      | .ok cs => .ok (r :: cs)
      | .error e => .error e
    | none => .error "IndexError"

/-- Embeds `checkRefspec(refspecList, groupFa)` (searchOrtho.py lines 108-116):
collect the second pipe-delimited field of every member header of the group
fasta, then return the first entry of `refspecList` occurring in that list,
`''` when none does. -/
def checkRefspec (refspecList : List String) (groupFa : List SeqRecord) :
    Except String String := do
  let coreSpec ← collectSpecies groupFa
  pure (firstMatch refspecList coreSpec)

/-- One entry of the `os.listdir` scan of `core_orthologs/<coreSet>` in
`prepareJob`: the entry name, whether it is a directory, and the parsed
content of `<groupID>/<groupID>.fa`. -/
structure GroupEntry where
  groupID : String
  isDir : Bool
  fa : List SeqRecord
deriving DecidableEq

/-- The job descriptor appended to `fdogJobs` (searchOrtho.py line 143); the
path arguments `outPath`, `blastDir`, `hmmPath` and `searchPath` are fixed by
the run and by `refspec`, so only the varying fields are kept. -/
structure FdogJob where
  groupFa : List SeqRecord
  groupID : String
  refspec : String
  force : Bool
deriving DecidableEq

/-- The three accumulators returned by `prepareJob`. -/
structure PrepareState where
  fdogJobs : List FdogJob
  ignored : List String
  groupRefspec : List (String × String)
deriving DecidableEq

/-- The body of the `for groupID in groups` loop of `prepareJob`
(searchOrtho.py lines 133-144).  `ppExists refspec groupID` is the existence
of `<outPath(refspec)>/<groupID>/<groupID>.phyloprofile` for the current
query. -/
def prepareStep (refspecList : List String) (ppExists : String → String → Bool)
    (force : Bool) (st : PrepareState) (g : GroupEntry) : Except String PrepareState :=
  if g.isDir then do
    let refspec ← checkRefspec refspecList g.fa
    if refspec = "" then
      pure { st with ignored := st.ignored ++ [g.groupID] }
    else
      pure { fdogJobs :=
               if !(ppExists refspec g.groupID) || force then
                 st.fdogJobs ++ [⟨g.fa, g.groupID, refspec, force⟩]
               else st.fdogJobs,
             ignored := st.ignored,
             groupRefspec := st.groupRefspec ++ [(g.groupID, refspec)] }
  else
    pure st

/-- Embeds `prepareJob` (searchOrtho.py lines 124-147): iterate over the
directory listing, resolve each group's reference species, accumulate jobs,
ignored groups and the group-to-refspec mapping; exit when the core set has
no groups at all. -/
def prepareJob (refspecList : List String) (groups : List GroupEntry)
    (ppExists : String → String → Bool) (force : Bool) : Except String PrepareState :=
  if 0 < groups.length then
    groups.foldlM (prepareStep refspecList ppExists force) ⟨[], [], []⟩
  else
    Except.error "No core group found"

/-- The species fields (second pipe-delimited header field) of a group fasta. -/
def speciesListOf (fa : List SeqRecord) : List String :=
  fa.map (fun s => ((PyModel.pySplit s.id '|')[1]?).getD "")

/-- Header well-formedness: every member header has a second pipe field. -/
def wfFasta (fa : List SeqRecord) : Prop :=
  ∀ s ∈ fa, 2 ≤ (PyModel.pySplit s.id '|').length

instance (fa : List SeqRecord) : Decidable (wfFasta fa) := by
  unfold wfFasta; infer_instance

/-- The reference species `prepareJob` resolves for a group (pure form). -/
def resolvedRefspec (refspecList : List String) (fa : List SeqRecord) : String :=
  firstMatch refspecList (speciesListOf fa)

/-- Jobs emitted by a run of `prepareJob`, in closed form. -/
def jobsOf (refspecList : List String) (ppExists : String → String → Bool)
    (force : Bool) (groups : List GroupEntry) : List FdogJob :=
  (groups.filter (fun g => g.isDir &&
      !(resolvedRefspec refspecList g.fa == "") &&
      (!(ppExists (resolvedRefspec refspecList g.fa) g.groupID) || force))).map
    (fun g => ⟨g.fa, g.groupID, resolvedRefspec refspecList g.fa, force⟩)

/-- Ignored groups of a run of `prepareJob`, in closed form. -/
def ignoredOf (refspecList : List String) (groups : List GroupEntry) : List String :=
  (groups.filter (fun g => g.isDir &&
      (resolvedRefspec refspecList g.fa == ""))).map GroupEntry.groupID

/-- The group-to-refspec mapping of a run of `prepareJob`, in closed form. -/
def refspecMapOf (refspecList : List String) (groups : List GroupEntry) :
    List (String × String) :=
  (groups.filter (fun g => g.isDir &&
      !(resolvedRefspec refspecList g.fa == ""))).map
    (fun g => (g.groupID, resolvedRefspec refspecList g.fa))

theorem collectSpecies_ok (fa : List SeqRecord) (hwf : wfFasta fa) :
    collectSpecies fa = .ok (speciesListOf fa) := by
  induction fa with
  | nil => rfl
  | cons s rest ih =>
    have hs : 2 ≤ (PyModel.pySplit s.id '|').length := hwf s (by simp)
    obtain ⟨r, hr⟩ : ∃ r, (PyModel.pySplit s.id '|')[1]? = some r := by
      cases hget : (PyModel.pySplit s.id '|')[1]? with
      | none => exact absurd (List.getElem?_eq_none_iff.mp hget) (by omega)
      | some r => exact ⟨r, rfl⟩
    have ihh := ih (fun s hs => hwf s (by simp [hs]))
    simp [collectSpecies, hr, ihh, speciesListOf]

theorem checkRefspec_ok (refspecList : List String) (fa : List SeqRecord)
    (hwf : wfFasta fa) :
    checkRefspec refspecList fa = .ok (resolvedRefspec refspecList fa) := by
  unfold checkRefspec resolvedRefspec
  rw [collectSpecies_ok fa hwf]
  rfl

theorem jobsOf_cons (refspecList : List String) (ppExists : String → String → Bool)
    (force : Bool) (g : GroupEntry) (rest : List GroupEntry) :
    jobsOf refspecList ppExists force (g :: rest) =
      (if g.isDir && !(resolvedRefspec refspecList g.fa == "") &&
          (!(ppExists (resolvedRefspec refspecList g.fa) g.groupID) || force) then
        [(⟨g.fa, g.groupID, resolvedRefspec refspecList g.fa, force⟩ : FdogJob)]
      else []) ++ jobsOf refspecList ppExists force rest := by
  unfold jobsOf
  rw [List.filter_cons]
  split <;> simp

theorem ignoredOf_cons (refspecList : List String) (g : GroupEntry)
    (rest : List GroupEntry) :
    ignoredOf refspecList (g :: rest) =
      (if g.isDir && (resolvedRefspec refspecList g.fa == "") then [g.groupID]
       else []) ++ ignoredOf refspecList rest := by
  unfold ignoredOf
  rw [List.filter_cons]
  split <;> simp

theorem refspecMapOf_cons (refspecList : List String) (g : GroupEntry)
    (rest : List GroupEntry) :
    refspecMapOf refspecList (g :: rest) =
      (if g.isDir && !(resolvedRefspec refspecList g.fa == "") then
        [(g.groupID, resolvedRefspec refspecList g.fa)]
      else []) ++ refspecMapOf refspecList rest := by
  unfold refspecMapOf
  rw [List.filter_cons]
  split <;> simp


theorem exceptBind_ok {ε α β : Type} (a : α) (f : α → Except ε β) :
    (Except.ok a : Except ε α) >>= f = f a := rfl

theorem exceptPure_eq_ok {ε α : Type} (a : α) :
    (pure a : Except ε α) = Except.ok a := rfl

theorem prepareStep_eq (refspecList : List String) (ppExists : String → String → Bool)
    (force : Bool) (st : PrepareState) (g : GroupEntry) (hg : wfFasta g.fa) :
    prepareStep refspecList ppExists force st g = .ok
      { fdogJobs := st.fdogJobs ++
          (if g.isDir && !(resolvedRefspec refspecList g.fa == "") &&
              (!(ppExists (resolvedRefspec refspecList g.fa) g.groupID) || force) then
            [(⟨g.fa, g.groupID, resolvedRefspec refspecList g.fa, force⟩ : FdogJob)]
          else []),
        ignored := st.ignored ++
          (if g.isDir && (resolvedRefspec refspecList g.fa == "") then [g.groupID]
           else []),
        groupRefspec := st.groupRefspec ++
          (if g.isDir && !(resolvedRefspec refspecList g.fa == "") then
            [(g.groupID, resolvedRefspec refspecList g.fa)]
          else []) } := by
  by_cases hdir : g.isDir = true
  · unfold prepareStep
    rw [if_pos hdir]
    show (checkRefspec refspecList g.fa) >>= _ = _
    rw [checkRefspec_ok refspecList g.fa hg, exceptBind_ok]
    by_cases hres : resolvedRefspec refspecList g.fa = ""
    · rw [if_pos hres]
      simp [hres, hdir, exceptPure_eq_ok]
    · rw [if_neg hres]
      by_cases hcond :
          (!(ppExists (resolvedRefspec refspecList g.fa) g.groupID) || force) = true
      · simp [hdir, hres, hcond, exceptPure_eq_ok]
      · simp [hdir, hres, hcond, exceptPure_eq_ok]
  · have hdir2 : g.isDir = false := by simpa using hdir
    unfold prepareStep
    simp [hdir2, exceptPure_eq_ok]

theorem foldlM_prepareStep (refspecList : List String)
    (ppExists : String → String → Bool) (force : Bool) :
    ∀ (groups : List GroupEntry) (st : PrepareState),
    (∀ g ∈ groups, wfFasta g.fa) →
    groups.foldlM (prepareStep refspecList ppExists force) st =
      .ok ⟨st.fdogJobs ++ jobsOf refspecList ppExists force groups,
           st.ignored ++ ignoredOf refspecList groups,
           st.groupRefspec ++ refspecMapOf refspecList groups⟩ := by
  intro groups
  induction groups with
  | nil =>
    intro st _
    show (pure st : Except String PrepareState) = _
    simp [jobsOf, ignoredOf, refspecMapOf, exceptPure_eq_ok]
  | cons g rest ih =>
    intro st hwf
    have hrest : ∀ g' ∈ rest, wfFasta g'.fa := fun g' h => hwf g' (by simp [h])
    rw [List.foldlM_cons, prepareStep_eq refspecList ppExists force st g (hwf g (by simp)),
      exceptBind_ok, ih _ hrest, jobsOf_cons, ignoredOf_cons, refspecMapOf_cons]
    simp [List.append_assoc]

theorem prepareJob_ok (refspecList : List String) (groups : List GroupEntry)
    (ppExists : String → String → Bool) (force : Bool)
    (hne : groups ≠ []) (hwf : ∀ g ∈ groups, wfFasta g.fa) :
    prepareJob refspecList groups ppExists force =
      .ok ⟨jobsOf refspecList ppExists force groups,
           ignoredOf refspecList groups,
           refspecMapOf refspecList groups⟩ := by
  unfold prepareJob
  rw [if_pos (by cases groups with | nil => exact absurd rfl hne | cons a l => simp)]
  simpa using foldlM_prepareStep refspecList ppExists force groups ⟨[], [], []⟩ hwf

theorem firstMatch_eq_findFirst (rl cs : List String) :
    firstMatch rl cs = ((rl.find? (fun r => decide (r ∈ cs))).getD "") := by
  induction rl with
  | nil => rfl
  | cons r rest ih =>
    by_cases h : r ∈ cs <;> simp [firstMatch, List.find?_cons, h, ih]

theorem firstMatch_eq_empty (rl cs : List String) (h : ∀ r ∈ rl, r ∉ cs) :
    firstMatch rl cs = "" := by
  induction rl with
  | nil => rfl
  | cons r rest ih =>
    simp [firstMatch, h r (by simp), ih (fun x hx => h x (by simp [hx]))]

theorem alookup_refspecMapOf_not_mem (refspecList : List String)
    (groups : List GroupEntry) (k : String)
    (hk : k ∉ groups.map GroupEntry.groupID) :
    PyModel.alookup k (refspecMapOf refspecList groups) = none := by
  induction groups with
  | nil => rfl
  | cons g rest ih =>
    have hk1 : ¬(g.groupID = k) := by
      intro h
      exact hk (by simp [h])
    have hk2 : k ∉ rest.map GroupEntry.groupID := by
      intro h
      exact hk (by simp [h])
    rw [refspecMapOf_cons]
    split
    · simp [PyModel.alookup, hk1, ih hk2]
    · simpa using ih hk2

theorem alookup_refspecMapOf_some (refspecList : List String)
    (groups : List GroupEntry) (g : GroupEntry)
    (hnd : (groups.map GroupEntry.groupID).Nodup) (hg : g ∈ groups)
    (hdir : g.isDir = true) (hres : resolvedRefspec refspecList g.fa ≠ "") :
    PyModel.alookup g.groupID (refspecMapOf refspecList groups) =
      some (resolvedRefspec refspecList g.fa) := by
  induction groups with
  | nil => cases hg
  | cons h t ih =>
    rw [List.map_cons, List.nodup_cons] at hnd
    rcases List.mem_cons.mp hg with heq | hgt
    · subst heq
      rw [refspecMapOf_cons,
        if_pos (by simp [hdir, hres])]
      simp [PyModel.alookup]
    · have hneq : ¬(h.groupID = g.groupID) := by
        intro he
        exact hnd.1 (he ▸ List.mem_map_of_mem GroupEntry.groupID hgt)
      rw [refspecMapOf_cons]
      split
      · simpa [PyModel.alookup, hneq] using ih hnd.2 hgt
      · simpa using ih hnd.2 hgt

theorem alookup_refspecMapOf_ignored (refspecList : List String)
    (groups : List GroupEntry) (g : GroupEntry)
    (hnd : (groups.map GroupEntry.groupID).Nodup) (hg : g ∈ groups)
    (hres : resolvedRefspec refspecList g.fa = "") :
    PyModel.alookup g.groupID (refspecMapOf refspecList groups) = none := by
  induction groups with
  | nil => cases hg
  | cons h t ih =>
    rw [List.map_cons, List.nodup_cons] at hnd
    rcases List.mem_cons.mp hg with heq | hgt
    · subst heq
      rw [refspecMapOf_cons, if_neg (by simp [hres])]
      simpa using alookup_refspecMapOf_not_mem refspecList t g.groupID hnd.1
    · have hneq : ¬(h.groupID = g.groupID) := by
        intro he
        exact hnd.1 (he ▸ List.mem_map_of_mem GroupEntry.groupID hgt)
      rw [refspecMapOf_cons]
      split
      · simpa [PyModel.alookup, hneq] using ih hnd.2 hgt
      · simpa using ih hnd.2 hgt

theorem mem_jobsOf (refspecList : List String) (ppExists : String → String → Bool)
    (force : Bool) (groups : List GroupEntry) (j : FdogJob) :
    j ∈ jobsOf refspecList ppExists force groups ↔
      ∃ g ∈ groups, g.isDir = true ∧ resolvedRefspec refspecList g.fa ≠ "" ∧
        (!(ppExists (resolvedRefspec refspecList g.fa) g.groupID) || force) = true ∧
        j = ⟨g.fa, g.groupID, resolvedRefspec refspecList g.fa, force⟩ := by
  unfold jobsOf
  simp only [List.mem_map, List.mem_filter, Bool.and_eq_true, Bool.not_eq_eq_eq_not,
    Bool.not_true, beq_eq_false_iff_ne, ne_eq]
  constructor
  · rintro ⟨g, ⟨hmem, ⟨hdir, hres⟩, hcond⟩, hj⟩
    exact ⟨g, hmem, hdir, by simpa using hres, by simpa using hcond, hj.symm⟩
  · rintro ⟨g, hmem, hdir, hres, hcond, hj⟩
    exact ⟨g, ⟨hmem, ⟨hdir, by simpa using hres⟩, by simpa using hcond⟩, hj.symm⟩

theorem mem_ignoredOf (refspecList : List String) (groups : List GroupEntry)
    (gid : String) :
    gid ∈ ignoredOf refspecList groups ↔
      ∃ g ∈ groups, g.isDir = true ∧ resolvedRefspec refspecList g.fa = "" ∧
        g.groupID = gid := by
  unfold ignoredOf
  simp only [List.mem_map, List.mem_filter, Bool.and_eq_true, beq_iff_eq]
  constructor
  · rintro ⟨g, ⟨hmem, hdir, hres⟩, hj⟩
    exact ⟨g, hmem, hdir, hres, hj⟩
  · rintro ⟨g, hmem, hdir, hres, hj⟩
    exact ⟨g, ⟨hmem, hdir, hres⟩, hj⟩

/-- Claim C2: for every ortholog group (directory entry), the work-unit
builder selects as reference species the first element of the caller-provided
preference list that occurs among the species fields (second pipe-delimited
header field) of the group's fasta members; when no element of the preference
list occurs among the members, the group is put on the ignored list, no job
descriptor carries its group id, and the group-to-refspec mapping has no
entry for it. -/
theorem C2_refspec_resolution (refspecList : List String) (groups : List GroupEntry)
    (ppExists : String → String → Bool) (force : Bool) (g : GroupEntry)
    (hg : g ∈ groups) (hdir : g.isDir = true)
    (hwf : ∀ g' ∈ groups, wfFasta g'.fa)
    (hnd : (groups.map GroupEntry.groupID).Nodup) :
    checkRefspec refspecList g.fa =
      .ok ((refspecList.find? (fun r => decide (r ∈ speciesListOf g.fa))).getD "") ∧
    ((∀ r ∈ refspecList, r ∉ speciesListOf g.fa) →
      ∃ res, prepareJob refspecList groups ppExists force = .ok res ∧
        g.groupID ∈ res.ignored ∧
        (∀ j ∈ res.fdogJobs, j.groupID ≠ g.groupID) ∧
        PyModel.alookup g.groupID res.groupRefspec = none) := by
  have hne : groups ≠ [] := by rintro rfl; cases hg
  constructor
  · rw [checkRefspec_ok refspecList g.fa (hwf g hg)]
    unfold resolvedRefspec
    rw [firstMatch_eq_findFirst]
  · intro hnone
    have hres : resolvedRefspec refspecList g.fa = "" :=
      firstMatch_eq_empty _ _ hnone
    refine ⟨_, prepareJob_ok refspecList groups ppExists force hne hwf, ?_, ?_, ?_⟩
    · exact (mem_ignoredOf _ _ _).mpr ⟨g, hg, hdir, hres, rfl⟩
    · intro j hj heq
      obtain ⟨g', hg', hdir', hres', hcond', hjeq⟩ :=
        (mem_jobsOf _ _ _ _ _).mp hj
      have heq' : g'.groupID = g.groupID := by rw [hjeq] at heq; exact heq
      have hgg : g' = g := List.inj_on_of_nodup_map hnd hg' hg heq'
      exact hres' (hgg ▸ hres)
    · exact alookup_refspecMapOf_ignored refspecList groups g hnd hg hres

/-- Witness for C2 at a concrete input: one group whose only member belongs
to species `A` while the preference list is `[X]` — the group is ignored. -/
theorem C2_refspec_resolution_witness :
    checkRefspec ["X"] ([⟨"g1|A|m1|1", "MK"⟩] : List SeqRecord) =
      .ok (((["X"] : List String).find?
        (fun r => decide (r ∈ speciesListOf ([⟨"g1|A|m1|1", "MK"⟩] : List SeqRecord)))).getD "") ∧
    ((∀ r ∈ (["X"] : List String),
        r ∉ speciesListOf ([⟨"g1|A|m1|1", "MK"⟩] : List SeqRecord)) →
      ∃ res, prepareJob ["X"] [⟨"g1", true, [⟨"g1|A|m1|1", "MK"⟩]⟩]
          (fun _ _ => false) false = .ok res ∧
        "g1" ∈ res.ignored ∧
        (∀ j ∈ res.fdogJobs, j.groupID ≠ "g1") ∧
        PyModel.alookup "g1" res.groupRefspec = none) :=
  C2_refspec_resolution ["X"] [⟨"g1", true, [⟨"g1|A|m1|1", "MK"⟩]⟩]
    (fun _ _ => false) false ⟨"g1", true, [⟨"g1|A|m1|1", "MK"⟩]⟩
    (by simp) rfl (by decide) (by simp)

/-- Claim C3: for a group with a resolved reference species, `prepareJob`
emits a job descriptor for it exactly when `force` is set or the per-group
output file `<outPath>/<groupID>/<groupID>.phyloprofile` (whose path is
determined by the resolved reference species and the group id for the current
query) does not exist; any job carrying the group id is the expected
descriptor; and whether or not a job is emitted, the resolved reference
species is recorded in the group-to-refspec mapping. -/
theorem C3_idempotent_skip (refspecList : List String) (groups : List GroupEntry)
    (ppExists : String → String → Bool) (force : Bool) (g : GroupEntry)
    (hg : g ∈ groups) (hdir : g.isDir = true)
    (hwf : ∀ g' ∈ groups, wfFasta g'.fa)
    (hnd : (groups.map GroupEntry.groupID).Nodup)
    (hres : resolvedRefspec refspecList g.fa ≠ "") :
    ∃ res, prepareJob refspecList groups ppExists force = .ok res ∧
      ((∃ j ∈ res.fdogJobs, j.groupID = g.groupID) ↔
        (force = true ∨ ppExists (resolvedRefspec refspecList g.fa) g.groupID = false)) ∧
      (∀ j ∈ res.fdogJobs, j.groupID = g.groupID →
        j = ⟨g.fa, g.groupID, resolvedRefspec refspecList g.fa, force⟩) ∧
      PyModel.alookup g.groupID res.groupRefspec =
        some (resolvedRefspec refspecList g.fa) := by
  have hne : groups ≠ [] := by rintro rfl; cases hg
  refine ⟨_, prepareJob_ok refspecList groups ppExists force hne hwf, ?_, ?_, ?_⟩
  · constructor
    · rintro ⟨j, hj, heq⟩
      obtain ⟨g', hg', hdir', hres', hcond', hjeq⟩ :=
        (mem_jobsOf _ _ _ _ _).mp hj
      have heq' : g'.groupID = g.groupID := by rw [hjeq] at heq; exact heq
      have hgg : g' = g := List.inj_on_of_nodup_map hnd hg' hg heq'
      rw [hgg] at hcond'
      rcases (by simpa using hcond' :
          ppExists (resolvedRefspec refspecList g.fa) g.groupID = false ∨
            force = true) with hpp | hf
      · exact Or.inr hpp
      · exact Or.inl hf
    · intro hdisj
      refine ⟨⟨g.fa, g.groupID, resolvedRefspec refspecList g.fa, force⟩, ?_, rfl⟩
      apply (mem_jobsOf _ _ _ _ _).mpr
      refine ⟨g, hg, hdir, hres, ?_, rfl⟩
      rcases hdisj with hf | hpp
      · simp [hf]
      · simp [hpp]
  · intro j hj heq
    obtain ⟨g', hg', hdir', hres', hcond', hjeq⟩ :=
      (mem_jobsOf _ _ _ _ _).mp hj
    have heq' : g'.groupID = g.groupID := by rw [hjeq] at heq; exact heq
    have hgg : g' = g := List.inj_on_of_nodup_map hnd hg' hg heq'
    rw [hgg] at hjeq
    exact hjeq
  · exact alookup_refspecMapOf_some refspecList groups g hnd hg hdir hres

/-- Witness for C3 at a concrete input: one group whose member species `A`
heads the preference list; the per-group output file exists and force is
unset, so the job is skipped while the mapping records `A`. -/
theorem C3_idempotent_skip_witness :
    ∃ res, prepareJob ["A"] [⟨"g1", true, [⟨"g1|A|m1|1", "MK"⟩]⟩]
        (fun _ _ => true) false = .ok res ∧
      ((∃ j ∈ res.fdogJobs, j.groupID = "g1") ↔
        (false = true ∨
          (fun (_ _ : String) => true)
            (resolvedRefspec ["A"] ([⟨"g1|A|m1|1", "MK"⟩] : List SeqRecord)) "g1" = false)) ∧
      (∀ j ∈ res.fdogJobs, j.groupID = "g1" →
        j = ⟨[⟨"g1|A|m1|1", "MK"⟩], "g1",
          resolvedRefspec ["A"] ([⟨"g1|A|m1|1", "MK"⟩] : List SeqRecord), false⟩) ∧
      PyModel.alookup "g1" res.groupRefspec =
        some (resolvedRefspec ["A"] ([⟨"g1|A|m1|1", "MK"⟩] : List SeqRecord)) :=
  C3_idempotent_skip ["A"] [⟨"g1", true, [⟨"g1|A|m1|1", "MK"⟩]⟩]
    (fun _ _ => true) false ⟨"g1", true, [⟨"g1|A|m1|1", "MK"⟩]⟩
    (by simp) rfl (by decide) (by simp) (by decide)

/-- Embeds `isInt(s)` (searchOrtho.py lines 55-60): whether python `int(s)`
succeeds.  `int` is the python builtin; it is modelled for the forms relevant
to taxonomy-ID fields: an optional sign followed by at least one decimal
digit (surrounding whitespace and underscore group separators are not
modelled). -/
def pyIntOk (s : String) : Bool :=
  let l := s.data
  let l2 := if l.headD ' ' = '+' ∨ l.headD ' ' = '-' then l.tail else l
  !l2.isEmpty && l2.all Char.isDigit

def isInt (s : String) : Bool := pyIntOk s

/-- `query.split('/')[-1].split('.')[0]`: the query ID derived from the query
fasta file name (searchOrtho.py line 76). -/
def queryIDOf (query : String) : String :=
  (PyModel.pySplit ((PyModel.pySplit query '/').getLastD "") '.').headD ""

/-- The format condition of searchOrtho.py line 78: the ID splits on `@` into
exactly three fields and the middle field parses as an integer. -/
def validQueryID (queryID : String) : Prop :=
  (PyModel.pySplit queryID '@').length = 3 ∧
    isInt ((PyModel.pySplit queryID '@').getD 1 "") = true

instance (queryID : String) : Decidable (validQueryID queryID) := by
  unfold validQueryID; infer_instance

/-- Outcome of the format check at the head of `parseQueryFa`:
terminate via `sys.exit` with the format-error message, fall back to the
`fdog.addTaxon` path, or accept the query ID as is. -/
inductive QueryCheck where
  | exitFormatError : String → QueryCheck
  | addTaxon : QueryCheck
  | validQuery : String → QueryCheck
deriving DecidableEq

/-- Embeds the decision logic of `parseQueryFa(query, taxid, ...)`
(searchOrtho.py lines 75-106): derive the query ID from the file name; if it
is not in `name@taxid@version` format, exit with a format error when no
taxonomy-ID override was given (`taxid == '0'`), otherwise run
`fdog.addTaxon`; a well-formed ID is accepted as is. -/
def parseQueryFa (query : String) (taxid : String) : QueryCheck :=
  let queryID := queryIDOf query
  if ¬ validQueryID queryID then
    if taxid = "0" then
      .exitFormatError "Query taxon does not have suitable ID format (e.g. HUMAN@9606@3). Please provide its taxonomy ID additionaly using --taxid option!"
    else
      .addTaxon
  else
    .validQuery queryID

/-- Claim C8: `parseQueryFa` treats the query identifier as validly formatted
exactly when splitting it on `@` yields three fields whose middle field
parses as an integer; for any identifier invalid in this sense, a caller
taxonomy-ID override equal to `'0'` makes the program terminate via
`sys.exit` with the descriptive format-error message rather than crash. -/
theorem C8_query_format (query taxid : String) :
    (parseQueryFa query taxid = .validQuery (queryIDOf query) ↔
      validQueryID (queryIDOf query)) ∧
    (¬ validQueryID (queryIDOf query) → taxid = "0" →
      parseQueryFa query taxid = .exitFormatError "Query taxon does not have suitable ID format (e.g. HUMAN@9606@3). Please provide its taxonomy ID additionaly using --taxid option!") := by
  by_cases hv : validQueryID (queryIDOf query)
  · constructor
    · simp [parseQueryFa, hv]
    · intro hnv
      exact absurd hv hnv
  · constructor
    · have hred : parseQueryFa query taxid =
          (if taxid = "0" then
            QueryCheck.exitFormatError "Query taxon does not have suitable ID format (e.g. HUMAN@9606@3). Please provide its taxonomy ID additionaly using --taxid option!"
          else QueryCheck.addTaxon) := by
        simp [parseQueryFa, hv]
      rw [hred]
      constructor
      · intro habs
        by_cases ht : taxid = "0" <;> simp [ht] at habs
      · intro habs
        exact absurd habs hv
    · intro _ ht
      simp [parseQueryFa, hv, ht]

/-- Witness for C8 at a concrete input: the file name `HUMAN@x@3.fa` yields
the ID `HUMAN@x@3` whose middle field is not numeric; with no override the
run exits with the format error. -/
theorem C8_query_format_witness :
    ¬ validQueryID (queryIDOf "HUMAN@x@3.fa") ∧
    parseQueryFa "HUMAN@x@3.fa" "0" = .exitFormatError "Query taxon does not have suitable ID format (e.g. HUMAN@9606@3). Please provide its taxonomy ID additionaly using --taxid option!" :=
  ⟨by decide, (C8_query_format "HUMAN@x@3.fa" "0").2 (by decide) rfl⟩

end SearchOrtho

namespace CalcCutoff

/-- Embeds the group-level (`'all'`) branch of `calcCutoff`
(calcCutoff.py lines 167-179).  The external fit
`EnvStats.eexp(groupPair, ci='TRUE')` is treated as an oracle whose
confidence limits on the exponential rate are `rateLCL` and `rateUCL`; the
function returns the `label, value` lines written to `1.cutoff`:
the mean of the group-level pair values, `LCL = 1/rateUCL` and
`UCL = 1/rateLCL` (in that order). -/
def groupCutoffLines (groupPair : List ℚ) (rateLCL rateUCL : ℚ) :
    Option (List (String × ℚ)) := do
  let ucl ← PyModel.pyDiv 1 rateLCL
  let lcl ← PyModel.pyDiv 1 rateUCL
  let m ← PyModel.pyMean groupPair
  pure [("mean", m), ("LCL", lcl), ("UCL", ucl)]

/-- Claim C5: with the exponential fit treated as an oracle returning rate
confidence limits, `calcCutoff` writes a group record whose `UCL` is
`1/rateLCL`, whose `LCL` is `1/rateUCL`, and whose `mean` is the arithmetic
mean of the group-level pair values; for positive rate limits with
`rateLCL < rateUCL` this gives `LCL < UCL` in score units. -/
theorem C5_cutoff_inversion (groupPair : List ℚ) (rateLCL rateUCL : ℚ)
    (hl : 0 < rateLCL) (hu : rateLCL < rateUCL) (hne : groupPair ≠ []) :
    groupCutoffLines groupPair rateLCL rateUCL =
      some [("mean", groupPair.sum / groupPair.length),
            ("LCL", 1 / rateUCL), ("UCL", 1 / rateLCL)] ∧
    1 / rateUCL < 1 / rateLCL := by
  constructor
  · unfold groupCutoffLines PyModel.pyDiv PyModel.pyMean
    rw [if_neg hl.ne', if_neg (lt_trans hl hu).ne',
      if_neg (by simpa [List.isEmpty_iff] using hne)]
    rfl
  · exact one_div_lt_one_div_of_lt hl hu

/-- Witness for C5 at concrete values `rateLCL = 1 < 2 = rateUCL` and a
one-element sample. -/
theorem C5_cutoff_inversion_witness :
    groupCutoffLines [(1 : ℚ)] 1 2 =
      some [("mean", ([(1 : ℚ)].sum / ([(1 : ℚ)].length : ℚ))),
            ("LCL", 1 / 2), ("UCL", 1 / 1)] ∧
    (1 : ℚ) / 2 < 1 / 1 :=
  C5_cutoff_inversion [1] 1 2 (by norm_num) (by norm_num) (by simp)

/-- The member sequence lengths collected from the group fasta
(calcCutoff.py lines 184-186). -/
def groupLenOf (fa : List SeqRecord) : List ℕ :=
  fa.map (fun s => s.seq.length)

/-- Embeds the length-statistics tail of `calcCutoff`
(calcCutoff.py lines 183-188): the labels of the lines appended to
`1.cutoff` (values elided) paired with the python exception raised, if any.
python `statistics.mean` raises `StatisticsError` on an empty sample and
`statistics.stdev` raises it on fewer than two data points; the `stdevLen`
value is computed before the line is written, so the failing call leaves the
line unwritten while `meanLen` is already in the file. -/
def lenStatWrites (groupLen : List ℕ) : List String × Option String :=
  match PyModel.pyMean (groupLen.map (fun n => (n : ℚ))) with
  | none => ([], some "StatisticsError: mean requires at least one data point")
  | some _ =>
    if groupLen.length < 2 then
      (["meanLen"], some "StatisticsError: stdev requires at least two data points")
    else
      (["meanLen", "stdevLen"], none)

/-- Claim C9: for a group whose fasta has fewer than two member sequences,
the length-statistics step raises an error and never writes a `stdevLen`
line (lines already written before the failure, such as `meanLen` for a
one-member group, may be in the file). -/
theorem C9_stdev_fails_loudly (fa : List SeqRecord) (h : fa.length < 2) :
    ((lenStatWrites (groupLenOf fa)).2).isSome = true ∧
    "stdevLen" ∉ (lenStatWrites (groupLenOf fa)).1 := by
  rcases fa with _ | ⟨s, _ | ⟨t, rest⟩⟩
  · constructor <;> simp [lenStatWrites, groupLenOf, PyModel.pyMean]
  · constructor <;> simp [lenStatWrites, groupLenOf, PyModel.pyMean]
  · exact absurd h (by simp)

/-- Witness for C9 at a concrete one-member group. -/
theorem C9_stdev_fails_loudly_witness :
    ([⟨"g1|A|m1|1", "MKV"⟩] : List SeqRecord).length < 2 ∧
    (((lenStatWrites (groupLenOf [⟨"g1|A|m1|1", "MKV"⟩])).2).isSome = true ∧
      "stdevLen" ∉ (lenStatWrites (groupLenOf [⟨"g1|A|m1|1", "MKV"⟩])).1) :=
  ⟨by decide, C9_stdev_fails_loudly [⟨"g1|A|m1|1", "MKV"⟩] (by decide)⟩

end CalcCutoff

namespace SearchOrtho

/-- A file system as seen by `calcFAS`: file path to list of lines. -/
def FileSys : Type := List (String × List String)

/-- Embeds `readFile(file)` (searchOrtho.py lines 40-44): `open` raises
`FileNotFoundError` on a missing path, and no caller in `calcFAS` handles
it. -/
def readFile (fs : FileSys) (name : String) : Except String (List String) :=
  match PyModel.alookup name fs with
  | some lines => .ok lines
  | none => .error "FileNotFoundError"

/-- python list indexing `l[i]` (`Except.error` = `IndexError`). -/
def pyIdxE (l : List String) (i : ℕ) : Except String String :=
  match l[i]? with
  | some x => .ok x
  | none => .error "IndexError"

/-- Embeds the reverse-score scan of `calcFAS` (searchOrtho.py lines
220-224): `revFAS` starts as `0` and is replaced by
`revLine.split('\t')[2].split('/')[0]` for every companion-file line whose
first field equals `tmp[1]`. -/
def revScan (revLines : List String) (t1 : String) : Except String String :=
  revLines.foldlM (fun revFAS revLine =>
    if t1 = (PyModel.pySplit revLine '\t').headD "" then do
      let f2 ← pyIdxE (PyModel.pySplit revLine '\t') 2
      pure ((PyModel.pySplit f2 '/').headD "")
    else
      pure revFAS) "0"

/-- Embeds the per-line core-score augmentation of `calcFAS`
(searchOrtho.py lines 217-226), for one line `fLine` of a core
`fasscore_dir` table (a file whose name does not mention `refSpec`): when
the line's first field mentions `refSpec`, read the companion file
`<coreFasDir>/<species>.tsv`, scan it for the reverse score (zero when no
line matches), and return the `coreLine` row that is written to the final
phyloprofile; `.ok none` when the line is not selected; uncaught python
exceptions (missing companion file, missing fields) are `Except.error`. -/
def processCoreLine (fs : FileSys) (coreFasDir refSpec groupID : String)
    (fLine : String) : Except String (Option String) := do
  let tmp := PyModel.pySplit fLine '\t'
  if PyModel.pyIn refSpec (tmp.headD "") then do
    let sp ← pyIdxE (PyModel.pySplit (tmp.headD "") '|') 1
    let revLines ← readFile fs (coreFasDir ++ "/" ++ sp ++ ".tsv")
    let t1 ← pyIdxE tmp 1
    let revFAS ← revScan revLines t1
    let p1 ← pyIdxE (PyModel.pySplit t1 '|') 1
    let ncbi ← pyIdxE (PyModel.pySplit p1 '@') 1
    let t2 ← pyIdxE tmp 2
    pure (some (groupID ++ "\t" ++ "ncbi" ++ ncbi ++ "\t" ++ t1 ++ "\t" ++
      ((PyModel.pySplit t2 '/').headD "") ++ "\t" ++ revFAS ++ "\n"))
  else
    pure none

theorem revScan_no_match (revLines : List String) (t1 : String)
    (h : ∀ rl ∈ revLines, (PyModel.pySplit rl '\t').headD "" ≠ t1) :
    revScan revLines t1 = .ok "0" := by
  unfold revScan
  suffices hgen : ∀ init : String,
      revLines.foldlM (fun revFAS revLine =>
        if t1 = (PyModel.pySplit revLine '\t').headD "" then do
          let f2 ← pyIdxE (PyModel.pySplit revLine '\t') 2
          pure ((PyModel.pySplit f2 '/').headD "")
        else
          pure revFAS) init = .ok init by
    exact hgen "0"
  induction revLines with
  | nil => intro init; rfl
  | cons rl rest ih =>
    intro init
    rw [List.foldlM_cons, if_neg (fun he => h rl (by simp) he.symm)]
    have ihh := ih (fun x hx => h x (by simp [hx]))
    rw [show ((pure init : Except String String) >>= fun b =>
        rest.foldlM _ b) = rest.foldlM _ init from rfl]
    exact ihh init

end SearchOrtho

namespace SearchOrtho

/-- Claim C6 as stated is false at a concrete input: the companion
reverse-score table for the pair is absent from the filesystem, so
`readFile` raises an uncaught `FileNotFoundError` and the row is not
written — the pass does fail the row in that case. -/
theorem C6_counterexample :
    processCoreLine [] "d" "REF" "G"
        "G|REF|m|1\tG|OTH@5@1|n|1\t0.7/0.8" =
      .error "FileNotFoundError" := rfl

/-- Claim C6 (amended): for every selected core-score row whose reverse
score cannot be found in the companion reverse-score table — the companion
file exists but none of its lines matches — zero is substituted in the
reverse-FAS field and the row is still written; when the companion file for
the pair is itself absent, however, the read raises an uncaught
`FileNotFoundError` and the row is not written. -/
theorem C6_missing_reverse_zero (fs : FileSys)
    (coreFasDir refSpec groupID fLine : String)
    (sp t1 p1 ncbi t2 : String) (revLines : List String)
    (hsel : PyModel.pyIn refSpec ((PyModel.pySplit fLine '\t').headD "") = true)
    (hsp : (PyModel.pySplit ((PyModel.pySplit fLine '\t').headD "") '|')[1]? = some sp)
    (hfile : PyModel.alookup (coreFasDir ++ "/" ++ sp ++ ".tsv") fs = some revLines)
    (ht1 : (PyModel.pySplit fLine '\t')[1]? = some t1)
    (hnomatch : ∀ rl ∈ revLines, (PyModel.pySplit rl '\t').headD "" ≠ t1)
    (hp1 : (PyModel.pySplit t1 '|')[1]? = some p1)
    (hncbi : (PyModel.pySplit p1 '@')[1]? = some ncbi)
    (ht2 : (PyModel.pySplit fLine '\t')[2]? = some t2) :
    processCoreLine fs coreFasDir refSpec groupID fLine =
      .ok (some (groupID ++ "\t" ++ "ncbi" ++ ncbi ++ "\t" ++ t1 ++ "\t" ++
        ((PyModel.pySplit t2 '/').headD "") ++ "\t" ++ "0" ++ "\n")) := by
  unfold processCoreLine
  rw [if_pos hsel]
  simp only [pyIdxE, readFile, hsp, hfile, ht1, hp1, hncbi, ht2,
    revScan_no_match revLines t1 hnomatch, exceptBind_ok, exceptPure_eq_ok]

/-- Witness for the amended C6: the companion file `d/REF.tsv` exists but
has no line matching the row's second field, so the row is written with a
zero reverse score. -/
theorem C6_missing_reverse_zero_witness :
    processCoreLine [("d/REF.tsv", ["G|X|z|1\t0.1\t0.2"])] "d" "REF" "G"
        "G|REF|m|1\tG|OTH@5@1|n|1\t0.7/0.8" =
      .ok (some ("G" ++ "\t" ++ "ncbi" ++ "5" ++ "\t" ++ "G|OTH@5@1|n|1" ++
        "\t" ++ ((PyModel.pySplit "0.7/0.8" '/').headD "") ++ "\t" ++ "0" ++ "\n")) :=
  C6_missing_reverse_zero [("d/REF.tsv", ["G|X|z|1\t0.1\t0.2"])] "d" "REF" "G"
    "G|REF|m|1\tG|OTH@5@1|n|1\t0.7/0.8"
    "REF" "G|OTH@5@1|n|1" "OTH@5@1" "5" "0.7/0.8" ["G|X|z|1\t0.1\t0.2"]
    (by decide) (by decide) (by decide) (by decide) (by decide) (by decide)
    (by decide) (by decide)

end SearchOrtho

namespace SearchOrtho

/-- Update of the python dict `count`: value replacement for an existing
key, insertion at the end for a new one. -/
def updateA (l : List (String × ℕ)) (k : String) (v : ℕ) : List (String × ℕ) :=
  match l with
  | [] => [(k, v)]
  | (k2, v2) :: rest =>
    if k2 = k then (k2, v) :: rest else (k2, v2) :: updateA rest k v

theorem alookup_updateA_self (l : List (String × ℕ)) (k : String) (v : ℕ) :
    PyModel.alookup k (updateA l k v) = some v := by
  induction l with
  | nil => simp [updateA, PyModel.alookup]
  | cons p rest ih =>
    rcases p with ⟨k2, v2⟩
    by_cases h : k2 = k
    · simp [updateA, h, PyModel.alookup]
    · simp [updateA, h, PyModel.alookup, ih]

theorem alookup_updateA_ne (l : List (String × ℕ)) (k k3 : String) (v : ℕ)
    (h : k3 ≠ k) : PyModel.alookup k3 (updateA l k v) = PyModel.alookup k3 l := by
  have h2 : ¬ k = k3 := fun he => h he.symm
  induction l with
  | nil => simp [updateA, PyModel.alookup, h2]
  | cons p rest ih =>
    rcases p with ⟨k2, v2⟩
    by_cases hk2 : k2 = k
    · subst hk2
      simp [updateA, PyModel.alookup, h2]
    · simp [updateA, hk2, PyModel.alookup, ih]

/-- Embeds the per-sequence counter logic of `calcFASall`
(searchOrtho.py lines 264-275).  `seqs` lists, in iteration order over the
reference-species directories, group directories and fasta records, the
`(groupID, s.id)` of every sequence whose species field equals the query ID;
the python dict `count` starts empty, each sequence sets
`count[groupID] = 1` on first sight of the group and increments it
otherwise, and the record is emitted with the current counter value. -/
def tagSeqsGo : List (String × String) → List (String × ℕ) →
    List (String × ℕ × String) → List (String × ℕ) × List (String × ℕ × String)
  | [], count, out => (count, out)
  | gs :: rest, count, out =>
    match PyModel.alookup gs.1 count with
    | none => tagSeqsGo rest (updateA count gs.1 1) (out ++ [(gs.1, 1, gs.2)])
    | some n => tagSeqsGo rest (updateA count gs.1 (n + 1)) (out ++ [(gs.1, n + 1, gs.2)])

def tagSeqs (seqs : List (String × String)) : List (String × ℕ × String) :=
  (tagSeqsGo seqs [] []).2

/-- The identifier written to the merged fasta for a tagged sequence:
`id = str(count[groupID]) + '_' + s.id` (searchOrtho.py line 272). -/
def taggedID (n : ℕ) (sid : String) : String := Nat.repr n ++ "_" ++ sid

/-- The counter values assigned to group `g`, in emission order. -/
def countsFor (out : List (String × ℕ × String)) (g : String) : List ℕ :=
  (out.filter (fun e => e.1 == g)).map (fun e => e.2.1)

theorem countsFor_append_single (out : List (String × ℕ × String)) (g a : String)
    (n : ℕ) (s : String) :
    countsFor (out ++ [(a, n, s)]) g =
      countsFor out g ++ (if a == g then [n] else []) := by
  unfold countsFor
  rw [List.filter_append]
  split <;> simp_all [List.filter_cons]

theorem tagSeqsGo_counts (g : String) :
    ∀ (seqs : List (String × String)) (count : List (String × ℕ))
      (out : List (String × ℕ × String)),
    PyModel.alookup g count =
      (if (countsFor out g).length = 0 then none else some (countsFor out g).length) →
    countsFor out g = List.range' 1 (countsFor out g).length →
    countsFor (tagSeqsGo seqs count out).2 g =
      List.range' 1
        ((countsFor out g).length + (seqs.filter (fun s => s.1 == g)).length) := by
  intro seqs
  induction seqs with
  | nil =>
    intro count out h1 h2
    simpa [tagSeqsGo] using h2
  | cons gs rest ih =>
    intro count out h1 h2
    rcases gs with ⟨gid, sid⟩
    by_cases hgid : gid = g
    · subst hgid
      by_cases hlen : (countsFor out gid).length = 0
      · have hout : countsFor out gid = [] := List.length_eq_zero.mp hlen
        rw [show tagSeqsGo ((gid, sid) :: rest) count out =
            tagSeqsGo rest (updateA count gid 1) (out ++ [(gid, 1, sid)]) from by
          simp [tagSeqsGo, h1, hlen]]
        have hc1 : countsFor (out ++ [(gid, 1, sid)]) gid = [1] := by
          rw [countsFor_append_single, hout]
          simp
        have happ := ih (updateA count gid 1) (out ++ [(gid, 1, sid)])
          (by rw [alookup_updateA_self, hc1]; rfl)
          (by rw [hc1]; rfl)
        rw [happ, hc1]
        simp only [List.length_singleton, hlen, List.filter_cons,
          show (gid == gid) = true from by simp]
        simp [Nat.add_comm]
      · have hn : PyModel.alookup gid count = some (countsFor out gid).length := by
          rw [h1, if_neg hlen]
        rw [show tagSeqsGo ((gid, sid) :: rest) count out =
            tagSeqsGo rest (updateA count gid ((countsFor out gid).length + 1))
              (out ++ [(gid, (countsFor out gid).length + 1, sid)]) from by
          simp [tagSeqsGo, hn]]
        have hc1 : countsFor (out ++ [(gid, (countsFor out gid).length + 1, sid)]) gid =
            List.range' 1 ((countsFor out gid).length + 1) := by
          rw [countsFor_append_single]
          simp only [show (gid == gid) = true from by simp, if_true]
          rw [h2, List.range'_concat]
          simp [Nat.add_comm]
        have happ := ih (updateA count gid ((countsFor out gid).length + 1))
          (out ++ [(gid, (countsFor out gid).length + 1, sid)])
          (by rw [alookup_updateA_self, hc1]; simp)
          (by rw [hc1]; simp)
        rw [happ, hc1]
        simp only [List.length_range', List.filter_cons,
          show (gid == gid) = true from by simp]
        have : (countsFor out gid).length + 1 + (rest.filter (fun s => s.1 == gid)).length =
            (countsFor out gid).length + ((gid, sid) :: rest.filter (fun s => s.1 == gid)).length := by
          simp
          omega
        simp [Nat.add_comm, Nat.add_assoc, Nat.add_left_comm]
    · have hne : (gid == g) = false := by simp [hgid]
      cases hl : PyModel.alookup gid count with
      | none =>
        rw [show tagSeqsGo ((gid, sid) :: rest) count out =
            tagSeqsGo rest (updateA count gid 1) (out ++ [(gid, 1, sid)]) from by
          simp [tagSeqsGo, hl]]
        have hc1 : countsFor (out ++ [(gid, 1, sid)]) g = countsFor out g := by
          rw [countsFor_append_single, hne]
          simp
        have happ := ih (updateA count gid 1) (out ++ [(gid, 1, sid)])
          (by rw [alookup_updateA_ne _ _ _ _ (fun he => hgid he.symm), hc1]; exact h1)
          (by rw [hc1]; exact h2)
        rw [happ, hc1]
        simp [List.filter_cons, hne]
      | some n =>
        rw [show tagSeqsGo ((gid, sid) :: rest) count out =
            tagSeqsGo rest (updateA count gid (n + 1)) (out ++ [(gid, n + 1, sid)]) from by
          simp [tagSeqsGo, hl]]
        have hc1 : countsFor (out ++ [(gid, n + 1, sid)]) g = countsFor out g := by
          rw [countsFor_append_single, hne]
          simp
        have happ := ih (updateA count gid (n + 1)) (out ++ [(gid, n + 1, sid)])
          (by rw [alookup_updateA_ne _ _ _ _ (fun he => hgid he.symm), hc1]; exact h1)
          (by rw [hc1]; exact h2)
        rw [happ, hc1]
        simp [List.filter_cons, hne]

end SearchOrtho

namespace SearchOrtho

theorem digitChar_ne_underscore (m : ℕ) (h : m < 10) : Nat.digitChar m ≠ '_' := by
  interval_cases m <;> decide

theorem toDigitsCore_ne_underscore :
    ∀ (fuel n : ℕ) (ds : List Char), (∀ c ∈ ds, c ≠ '_') →
    ∀ c ∈ Nat.toDigitsCore 10 fuel n ds, c ≠ '_' := by
  intro fuel
  induction fuel with
  | zero =>
    intro n ds h c hc
    exact h c hc
  | succ fuel ih =>
    intro n ds h c hc
    rw [Nat.toDigitsCore] at hc
    by_cases h0 : n / 10 = 0
    · rw [if_pos h0] at hc
      rcases List.mem_cons.mp hc with rfl | hmem
      · exact digitChar_ne_underscore _ (Nat.mod_lt n (by norm_num))
      · exact h c hmem
    · rw [if_neg h0] at hc
      refine ih (n / 10) (Nat.digitChar (n % 10) :: ds) ?_ c hc
      intro c2 hc2
      rcases List.mem_cons.mp hc2 with rfl | hmem
      · exact digitChar_ne_underscore _ (Nat.mod_lt n (by norm_num))
      · exact h c2 hmem

theorem repr_ne_underscore (n : ℕ) : '_' ∉ (Nat.repr n).data := by
  intro h
  exact toDigitsCore_ne_underscore (n + 1) n [] (by simp) '_' h rfl

/-- Reading a digit string back as a number (to invert `Nat.repr`). -/
def digitsVal (l : List Char) : ℕ :=
  l.foldl (fun acc c => 10 * acc + (c.toNat - '0'.toNat)) 0

theorem toDigitsCore_append :
    ∀ (fuel n : ℕ) (ds : List Char),
    Nat.toDigitsCore 10 fuel n ds = Nat.toDigitsCore 10 fuel n [] ++ ds := by
  intro fuel
  induction fuel with
  | zero => intro n ds; rfl
  | succ fuel ih =>
    intro n ds
    rw [Nat.toDigitsCore, Nat.toDigitsCore]
    by_cases h0 : n / 10 = 0
    · simp [h0]
    · rw [if_neg h0, if_neg h0, ih (n / 10) (Nat.digitChar (n % 10) :: ds),
        ih (n / 10) [Nat.digitChar (n % 10)]]
      simp

theorem digitChar_val (m : ℕ) (h : m < 10) :
    (Nat.digitChar m).toNat - '0'.toNat = m := by
  interval_cases m <;> decide

theorem digitsVal_append_singleton (xs : List Char) (d : Char) :
    digitsVal (xs ++ [d]) = 10 * digitsVal xs + (d.toNat - '0'.toNat) := by
  simp [digitsVal, List.foldl_append]

theorem digitsVal_toDigitsCore :
    ∀ (fuel n : ℕ), n < fuel → digitsVal (Nat.toDigitsCore 10 fuel n []) = n := by
  intro fuel
  induction fuel with
  | zero => intro n h; omega
  | succ fuel ih =>
    intro n h
    rw [Nat.toDigitsCore]
    by_cases h0 : n / 10 = 0
    · have hn : n < 10 := by omega
      rw [if_pos h0]
      show 10 * 0 + ((Nat.digitChar (n % 10)).toNat - '0'.toNat) = n
      rw [digitChar_val (n % 10) (Nat.mod_lt n (by norm_num))]
      omega
    · have hge : 10 ≤ n := by
        by_contra hlt
        exact h0 (Nat.div_eq_of_lt (by omega))
      rw [if_neg h0, toDigitsCore_append, digitsVal_append_singleton,
        ih (n / 10) (by omega), digitChar_val (n % 10) (Nat.mod_lt n (by omega))]
      omega

theorem repr_injective (n m : ℕ) (h : Nat.repr n = Nat.repr m) : n = m := by
  have hn : digitsVal (Nat.repr n).data = n :=
    digitsVal_toDigitsCore (n + 1) n (by omega)
  have hm : digitsVal (Nat.repr m).data = m :=
    digitsVal_toDigitsCore (m + 1) m (by omega)
  rw [← hn, ← hm, h]

theorem append_sep_inj :
    ∀ (xs zs ys ws : List Char) (c : Char), c ∉ xs → c ∉ zs →
    xs ++ c :: ys = zs ++ c :: ws → xs = zs ∧ ys = ws := by
  intro xs
  induction xs with
  | nil =>
    intro zs ys ws c hx hz h
    cases zs with
    | nil => simpa using h
    | cons z zs2 =>
      rw [List.nil_append, List.cons_append, List.cons_eq_cons] at h
      exact absurd (h.1 ▸ List.mem_cons_self z zs2) (h.1 ▸ hz)
  | cons x xs2 ih =>
    intro zs ys ws c hx hz h
    cases zs with
    | nil =>
      rw [List.nil_append, List.cons_append, List.cons_eq_cons] at h
      exact absurd (List.mem_cons_self x xs2) (h.1 ▸ hx)
    | cons z zs2 =>
      rw [List.cons_append, List.cons_append, List.cons_eq_cons] at h
      obtain ⟨h1, h2⟩ := ih zs2 ys ws c (fun hm => hx (List.mem_cons_of_mem x hm))
        (fun hm => hz (List.mem_cons_of_mem z hm)) h.2
      exact ⟨by rw [h.1, h1], h2⟩

theorem taggedID_inj (n m : ℕ) (s t : String)
    (h : taggedID n s = taggedID m t) : n = m ∧ s = t := by
  have hd : (Nat.repr n).data ++ '_' :: s.data =
      (Nat.repr m).data ++ '_' :: t.data := by
    have h2 := congrArg String.data h
    simpa [taggedID, String.data_append] using h2
  obtain ⟨h1, h2⟩ := append_sep_inj (Nat.repr n).data (Nat.repr m).data
    s.data t.data '_' (repr_ne_underscore n) (repr_ne_underscore m) hd
  constructor
  · apply repr_injective
    cases hrn : Nat.repr n with
    | mk ln =>
      cases hrm : Nat.repr m with
      | mk lm =>
        rw [hrn, hrm] at h1
        exact congrArg String.mk (by simpa using h1)
  · cases s with
    | mk ls =>
      cases t with
      | mk lt =>
        exact congrArg String.mk (by simpa using h2)

theorem nodup_map_transfer {α β γ : Type} (f : α → β) (g2 : α → γ) (l : List α)
    (hinj : ∀ a ∈ l, ∀ b ∈ l, g2 a = g2 b → f a = f b)
    (hf : (l.map f).Nodup) : (l.map g2).Nodup := by
  induction l with
  | nil => simp
  | cons x xs ih =>
    rw [List.map_cons, List.nodup_cons] at hf ⊢
    constructor
    · intro hmem
      obtain ⟨y, hy, hgy⟩ := List.mem_map.mp hmem
      exact hf.1 (List.mem_map.mpr ⟨y, hy,
        (hinj y (List.mem_cons_of_mem x hy) x (List.mem_cons_self x xs) hgy).symm ▸ rfl⟩)
    · exact ih (fun a ha b hb => hinj a (List.mem_cons_of_mem x ha)
        b (List.mem_cons_of_mem x hb)) hf.2

end SearchOrtho

namespace SearchOrtho

/-- Claim C7: in the all-members merge pass (`calcFASall`), the per-group
counter starts at 1 for the first query-derived ortholog of a group and
increases by exactly 1 for each further one — the counter values assigned to
a group, in emission order, are exactly `1, 2, …, k` where `k` is the number
of query-derived orthologs of that group — and consequently any two distinct
orthologs of the same group written to the merged fasta file receive
distinct counter-prefixed identifiers `str(count[groupID]) + '_' + s.id`. -/
theorem C7_counter_tags (seqs : List (String × String)) (g : String) :
    countsFor (tagSeqs seqs) g =
      List.range' 1 (seqs.filter (fun s => s.1 == g)).length ∧
    (((tagSeqs seqs).filter (fun e => e.1 == g)).map
      (fun e => taggedID e.2.1 e.2.2)).Nodup := by
  have hmain := tagSeqsGo_counts g seqs [] [] (by rfl) (by rfl)
  have hcounts : countsFor (tagSeqs seqs) g =
      List.range' 1 (seqs.filter (fun s => s.1 == g)).length := by
    simpa [tagSeqs, countsFor] using hmain
  refine ⟨hcounts, ?_⟩
  have hnodup : (((tagSeqs seqs).filter (fun e => e.1 == g)).map
      (fun e => e.2.1)).Nodup := by
    rw [show ((tagSeqs seqs).filter (fun e => e.1 == g)).map (fun e => e.2.1) =
        countsFor (tagSeqs seqs) g from rfl, hcounts]
    exact List.nodup_range' _ _
  exact nodup_map_transfer (fun e => e.2.1) (fun e => taggedID e.2.1 e.2.2)
    ((tagSeqs seqs).filter (fun e => e.1 == g))
    (fun a _ b _ hab => (taggedID_inj _ _ _ _ hab).1) hnodup

end SearchOrtho

namespace CalcCutoff

/-- The nested per-group score dictionary built by `parseFasOut`
(calcCutoff.py lines 109-142) under its `'all'` key:
species `s` → species `q` → list of scores (scores over `ℚ`), as an
association list in python-dict insertion order. -/
abbrev ScoreDict : Type := List (String × List (String × List ℚ))

/-- `scoreDict[a][b][0]` (calcCutoff.py line 150): two dict lookups followed
by a list indexing; `none` models the uncaught `KeyError`/`IndexError`. -/
def scoreGet (d : ScoreDict) (a b : String) : Option ℚ := do
  let inner ← PyModel.alookup a d
  let l ← PyModel.alookup b inner
  l.head?

/-- The `donePair` bookkeeping key `s+'_'+q` (calcCutoff.py lines 149-151). -/
def pairKey (s q : String) : String := s ++ "_" ++ q

/-- The inner loop `for q in scoreDict[s]` of `getGroupPairs`
(calcCutoff.py lines 147-151), carrying `donePair` and `out`.  The output is
instrumented with the `(s, q)` pair each appended value was computed for;
`getGroupPairs` below projects the instrumentation away.  Iterating the
inner dict yields its keys; the entry values are only read back through
`scoreGet`, exactly as the source looks them up. -/
def gpInner (d : ScoreDict) (s : String) :
    List (String × List ℚ) → List String → List (String × String × ℚ) →
    Option (List String × List (String × String × ℚ))
  | [], done, out => some (done, out)
  | (q, _) :: rest, done, out =>
    if pairKey s q ∈ done ∨ pairKey q s ∈ done then
      gpInner d s rest done out
    else
      match scoreGet d s q, scoreGet d q s with
      | some a, some b =>
        gpInner d s rest (done ++ [pairKey s q]) (out ++ [(s, q, (a + b) / 2)])
      | _, _ => none

/-- The outer loop `for s in scoreDict` of `getGroupPairs`: dict iteration
yields the entries in insertion order, and for a well-formed dict (no
duplicate keys) `scoreDict[s]` is the entry's own inner dict. -/
def gpOuter (d : ScoreDict) :
    List (String × List (String × List ℚ)) → List String →
    List (String × String × ℚ) →
    Option (List String × List (String × String × ℚ))
  | [], done, out => some (done, out)
  | (s, inner) :: rest, done, out =>
    match gpInner d s inner done out with
    | some (done2, out2) => gpOuter d rest done2 out2
    | none => none

/-- `getGroupPairs(scoreDict)` (calcCutoff.py lines 144-152), instrumented
with the pair each output value belongs to. -/
def getGroupPairsT (d : ScoreDict) : Option (List (String × String × ℚ)) :=
  (gpOuter d d [] []).map Prod.snd

/-- `getGroupPairs(scoreDict)`: the value list `out` as the source returns
it (the instrumentation projected away). -/
def getGroupPairs (d : ScoreDict) : Option (List ℚ) :=
  (getGroupPairsT d).map (List.map (fun e => e.2.2))

/-- The ordered pairs `(s, q)` present in the dictionary. -/
def pairsOf (d : ScoreDict) : List (String × String) :=
  d.flatMap (fun p => p.2.map (fun q => (p.1, q.1)))

/-- Python-dict well-formedness: the outer key list and every inner key
list are duplicate-free. -/
def WFDict (d : ScoreDict) : Prop :=
  (d.map Prod.fst).Nodup ∧ ∀ p ∈ d, (p.2.map Prod.fst).Nodup

/-- Both directions of every species pair are present in the dictionary. -/
def SymmDict (d : ScoreDict) : Prop :=
  ∀ p ∈ pairsOf d, (p.2, p.1) ∈ pairsOf d

/-- Every score cell list is nonempty (so `[0]` indexing succeeds). -/
def NonemptyCells (d : ScoreDict) : Prop :=
  ∀ p ∈ d, ∀ q ∈ p.2, q.2 ≠ []

/-- No species name contains an underscore, so the `donePair` keys
`s+'_'+q` are unambiguous. -/
def NoUnderscore (d : ScoreDict) : Prop :=
  ∀ p ∈ d, '_' ∉ p.1.data ∧ ∀ q ∈ p.2, '_' ∉ q.1.data

/-- How many values were emitted for the unordered pair `{x, y}`. -/
def uCount (E : List (String × String × ℚ)) (x y : String) : ℕ :=
  (E.filter (fun e => (e.1 == x && e.2.1 == y) || (e.1 == y && e.2.1 == x))).length

instance (d : ScoreDict) : Decidable (WFDict d) := by
  unfold WFDict; infer_instance

instance (d : ScoreDict) : Decidable (SymmDict d) := by
  unfold SymmDict; infer_instance

instance (d : ScoreDict) : Decidable (NonemptyCells d) := by
  unfold NonemptyCells; infer_instance

instance (d : ScoreDict) : Decidable (NoUnderscore d) := by
  unfold NoUnderscore; infer_instance

/-- The dictionary witnessing the `donePair` key collision: the unordered
pairs `{a_b, c}` and `{a, b_c}` both concatenate to the key `a_b_c`. -/
def dCex : ScoreDict :=
  [("a_b", [("c", [1])]), ("c", [("a_b", [1])]),
   ("a", [("b_c", [1])]), ("b_c", [("a", [1])])]

/-- Claim C4 as stated is false at a concrete input: `dCex` is a well-formed,
symmetric score dictionary with nonempty cells in which the pair
`{a, b_c}` appears, yet `getGroupPairs` emits no value for it (its key
`a_b_c` was already recorded for the distinct pair `{a_b, c}`), returning
one value where the claim requires two. -/
theorem C4_counterexample :
    WFDict dCex ∧ SymmDict dCex ∧ NonemptyCells dCex ∧
    ("a", "b_c") ∈ pairsOf dCex ∧
    (getGroupPairsT dCex).map (fun E => uCount E "a" "b_c") = some 0 ∧
    (getGroupPairs dCex).map List.length = some 1 := by
  refine ⟨by decide, by decide, by decide, by decide, ?_, ?_⟩ <;> rfl

end CalcCutoff

namespace CalcCutoff

theorem alookup_of_mem_nodup {α : Type} (l : List (String × α)) (k : String) (v : α)
    (hnd : (l.map Prod.fst).Nodup) (hm : (k, v) ∈ l) :
    PyModel.alookup k l = some v := by
  induction l with
  | nil => cases hm
  | cons p rest ih =>
    rw [List.map_cons, List.nodup_cons] at hnd
    rcases List.mem_cons.mp hm with heq | hmem
    · rw [← heq]
      simp [PyModel.alookup]
    · rcases p with ⟨k2, v2⟩
      have hne : ¬(k2 = k) := by
        intro he
        apply hnd.1
        rw [he]
        simpa using List.mem_map_of_mem Prod.fst hmem
      simp [PyModel.alookup, hne, ih hnd.2 hmem]

theorem pairKey_inj (a b c2 d2 : String) (ha : '_' ∉ a.data) (hc : '_' ∉ c2.data)
    (h : pairKey a b = pairKey c2 d2) : a = c2 ∧ b = d2 := by
  have hd : a.data ++ '_' :: b.data = c2.data ++ '_' :: d2.data := by
    have h2 := congrArg String.data h
    simpa [pairKey, String.data_append] using h2
  obtain ⟨h1, h2⟩ := SearchOrtho.append_sep_inj a.data c2.data b.data d2.data '_' ha hc hd
  constructor
  · cases a with
    | mk la =>
      cases c2 with
      | mk lc => exact congrArg String.mk (by simpa using h1)
  · cases b with
    | mk lb =>
      cases d2 with
      | mk ld => exact congrArg String.mk (by simpa using h2)

theorem uCount_append_single (E : List (String × String × ℚ))
    (e : String × String × ℚ) (x y : String) :
    uCount (E ++ [e]) x y = uCount E x y +
      (if (e.1 = x ∧ e.2.1 = y) ∨ (e.1 = y ∧ e.2.1 = x) then 1 else 0) := by
  unfold uCount
  rw [List.filter_append, List.length_append]
  congr 1
  by_cases h : (e.1 = x ∧ e.2.1 = y) ∨ (e.1 = y ∧ e.2.1 = x)
  · rw [if_pos h]
    have hb : ((e.1 == x && e.2.1 == y) || (e.1 == y && e.2.1 == x)) = true := by
      simpa using h
    simp [List.filter_cons, hb]
  · rw [if_neg h]
    have hb : ((e.1 == x && e.2.1 == y) || (e.1 == y && e.2.1 == x)) = false := by
      simpa using h
    simp [List.filter_cons, hb]

theorem uCount_comm (E : List (String × String × ℚ)) (x y : String) :
    uCount E x y = uCount E y x := by
  unfold uCount
  congr 1
  exact List.filter_congr (fun e _ => Bool.or_comm _ _)

theorem uCount_ne_zero (E : List (String × String × ℚ)) (x y : String) :
    uCount E x y ≠ 0 ↔
      ∃ e ∈ E, (e.1 = x ∧ e.2.1 = y) ∨ (e.1 = y ∧ e.2.1 = x) := by
  unfold uCount
  constructor
  · intro h
    obtain ⟨e, he⟩ := List.exists_mem_of_length_pos (Nat.pos_of_ne_zero h)
    have hmf := List.mem_filter.mp he
    exact ⟨e, hmf.1, by simpa using hmf.2⟩
  · rintro ⟨e, he, hcond⟩
    intro hlen
    rw [List.length_eq_zero] at hlen
    have : e ∈ E.filter (fun e =>
        (e.1 == x && e.2.1 == y) || (e.1 == y && e.2.1 == x)) :=
      List.mem_filter.mpr ⟨he, by simpa using hcond⟩
    rw [hlen] at this
    cases this

theorem mem_pairsOf_of_entry (d : ScoreDict) (s : String)
    (inner : List (String × List ℚ)) (h : (s, inner) ∈ d)
    (q : String × List ℚ) (hq : q ∈ inner) : (s, q.1) ∈ pairsOf d := by
  unfold pairsOf
  rw [List.mem_flatMap]
  exact ⟨(s, inner), h, List.mem_map.mpr ⟨q, hq, rfl⟩⟩

theorem mem_pairsOf_cons (p : String × List (String × List ℚ))
    (rest : ScoreDict) (x y : String) :
    (x, y) ∈ pairsOf (p :: rest) ↔
      (x = p.1 ∧ y ∈ p.2.map Prod.fst) ∨ (x, y) ∈ pairsOf rest := by
  unfold pairsOf
  rw [List.flatMap_cons, List.mem_append]
  constructor
  · rintro (hin | hrest)
    · obtain ⟨q, hq, heq⟩ := List.mem_map.mp hin
      obtain ⟨h1, h2⟩ := Prod.mk.injEq .. ▸ heq
      exact Or.inl ⟨h1.symm, h2 ▸ List.mem_map_of_mem Prod.fst hq⟩
    · exact Or.inr hrest
  · rintro (⟨h1, h2⟩ | hrest)
    · obtain ⟨q, hq, hq1⟩ := List.mem_map.mp h2
      exact Or.inl (List.mem_map.mpr ⟨q, hq, by rw [hq1, ← h1]⟩)
    · exact Or.inr hrest

theorem scoreGet_of_mem_pairs (d : ScoreDict) (hwf : WFDict d)
    (hne : NonemptyCells d) (x y : String) (hp : (x, y) ∈ pairsOf d) :
    ∃ v, scoreGet d x y = some v := by
  unfold pairsOf at hp
  rw [List.mem_flatMap] at hp
  obtain ⟨p, hpd, hmem⟩ := hp
  obtain ⟨q, hq, heq⟩ := List.mem_map.mp hmem
  have hx : p.1 = x := congrArg Prod.fst heq
  have hy : q.1 = y := congrArg Prod.snd heq
  have h1 : PyModel.alookup x d = some p.2 := by
    apply alookup_of_mem_nodup d x p.2 hwf.1
    rw [← hx]
    exact hpd
  have h2 : PyModel.alookup y p.2 = some q.2 := by
    apply alookup_of_mem_nodup p.2 y q.2 (hwf.2 p hpd)
    rw [← hy]
    exact hq
  have h3 : q.2 ≠ [] := hne p hpd q hq
  cases hq2 : q.2 with
  | nil => exact absurd hq2 h3
  | cons v l2 =>
    refine ⟨v, ?_⟩
    simp [scoreGet, h1, h2, hq2]

end CalcCutoff

namespace CalcCutoff

theorem keys_contains_iff (E : List (String × String × ℚ)) (x y : String)
    (hE : ∀ e ∈ E, '_' ∉ e.1.data ∧ '_' ∉ e.2.1.data)
    (hx : '_' ∉ x.data) (_hy : '_' ∉ y.data) :
    (pairKey x y ∈ E.map (fun e => pairKey e.1 e.2.1)) ↔
      ∃ e ∈ E, e.1 = x ∧ e.2.1 = y := by
  rw [List.mem_map]
  constructor
  · rintro ⟨e, he, hkey⟩
    obtain ⟨h1, h2⟩ := pairKey_inj e.1 e.2.1 x y (hE e he).1 hx hkey
    exact ⟨e, he, h1, h2⟩
  · rintro ⟨e, he, h1, h2⟩
    exact ⟨e, he, by rw [h1, h2]⟩

theorem blocked_iff (E : List (String × String × ℚ)) (s q : String)
    (hE : ∀ e ∈ E, '_' ∉ e.1.data ∧ '_' ∉ e.2.1.data)
    (hs : '_' ∉ s.data) (hq : '_' ∉ q.data) :
    (pairKey s q ∈ E.map (fun e => pairKey e.1 e.2.1) ∨
     pairKey q s ∈ E.map (fun e => pairKey e.1 e.2.1)) ↔ uCount E s q ≠ 0 := by
  rw [keys_contains_iff E s q hE hs hq, keys_contains_iff E q s hE hq hs,
    uCount_ne_zero]
  constructor
  · rintro (⟨e, he, h1, h2⟩ | ⟨e, he, h1, h2⟩)
    · exact ⟨e, he, Or.inl ⟨h1, h2⟩⟩
    · exact ⟨e, he, Or.inr ⟨h1, h2⟩⟩
  · rintro ⟨e, he, (⟨h1, h2⟩ | ⟨h1, h2⟩)⟩
    · exact Or.inl ⟨e, he, h1, h2⟩
    · exact Or.inr ⟨e, he, h1, h2⟩

/-- Whether the unordered pair `{x, y}` is visited during the inner loop for
outer species `s` and inner key list `qs`. -/
def inKeys (s : String) (qs : List (String × List ℚ)) (x y : String) : Prop :=
  (x = s ∧ y ∈ qs.map Prod.fst) ∨ (y = s ∧ x ∈ qs.map Prod.fst)

instance (s : String) (qs : List (String × List ℚ)) (x y : String) :
    Decidable (inKeys s qs x y) := by
  unfold inKeys; infer_instance

/-- Invariant carried through the loops of `getGroupPairs`: every emitted
entry has underscore-free species names and carries the mean of the first
scores of the two directions of its pair. -/
def EmitInv (d : ScoreDict) (E : List (String × String × ℚ)) : Prop :=
  (∀ e ∈ E, '_' ∉ e.1.data ∧ '_' ∉ e.2.1.data) ∧
  (∀ e ∈ E, ∃ a b, scoreGet d e.1 e.2.1 = some a ∧
    scoreGet d e.2.1 e.1 = some b ∧ e.2.2 = (a + b) / 2)

theorem inKeys_cons_iff (s q : String) (l : List ℚ)
    (rest : List (String × List ℚ)) (x y : String)
    (hne : ¬((s = x ∧ q = y) ∨ (s = y ∧ q = x))) :
    inKeys s rest x y ↔ inKeys s ((q, l) :: rest) x y := by
  unfold inKeys
  simp only [List.map_cons, List.mem_cons]
  constructor
  · rintro (⟨h1, h2⟩ | ⟨h1, h2⟩)
    · exact Or.inl ⟨h1, Or.inr h2⟩
    · exact Or.inr ⟨h1, Or.inr h2⟩
  · rintro (⟨h1, h2 | h2⟩ | ⟨h1, h2 | h2⟩)
    · exact absurd (Or.inl ⟨h1.symm, h2.symm⟩) hne
    · exact Or.inl ⟨h1, h2⟩
    · exact absurd (Or.inr ⟨h1.symm, h2.symm⟩) hne
    · exact Or.inr ⟨h1, h2⟩

theorem gpInner_spec (d : ScoreDict) (hwf : WFDict d) (hsym : SymmDict d)
    (hne : NonemptyCells d) (s : String) (hs : '_' ∉ s.data) :
    ∀ (qs : List (String × List ℚ)) (E : List (String × String × ℚ)),
    (∀ x ∈ qs, (s, x.1) ∈ pairsOf d) →
    (∀ x ∈ qs, '_' ∉ x.1.data) →
    EmitInv d E →
    ∃ E2, gpInner d s qs (E.map (fun e => pairKey e.1 e.2.1)) E =
        some (E2.map (fun e => pairKey e.1 e.2.1), E2) ∧
      EmitInv d E2 ∧
      ∀ x y, uCount E2 x y =
        if uCount E x y = 0 then (if inKeys s qs x y then 1 else 0)
        else uCount E x y := by
  intro qs
  induction qs with
  | nil =>
    intro E hqs hqU hinv
    refine ⟨E, rfl, hinv, ?_⟩
    intro x y
    by_cases h : uCount E x y = 0
    · simp [h, inKeys]
    · simp [h]
  | cons ql rest ih =>
    intro E hqs hqU hinv
    rcases ql with ⟨q, l⟩
    have hq : '_' ∉ q.data := by simpa using hqU (q, l) (by simp)
    have hpair : (s, q) ∈ pairsOf d := by simpa using hqs (q, l) (by simp)
    by_cases hb : uCount E s q = 0
    · -- the pair {s, q} has not been emitted yet: this visit emits it
      have hnbl : ¬(pairKey s q ∈ E.map (fun e => pairKey e.1 e.2.1) ∨
          pairKey q s ∈ E.map (fun e => pairKey e.1 e.2.1)) :=
        fun hcon => absurd hb ((blocked_iff E s q hinv.1 hs hq).mp hcon)
      obtain ⟨a, hsq⟩ := scoreGet_of_mem_pairs d hwf hne s q hpair
      obtain ⟨b, hqs2⟩ := scoreGet_of_mem_pairs d hwf hne q s
        (by simpa using hsym (s, q) hpair)
      rw [show gpInner d s ((q, l) :: rest) (E.map (fun e => pairKey e.1 e.2.1)) E =
          gpInner d s rest ((E.map (fun e => pairKey e.1 e.2.1)) ++ [pairKey s q])
            (E ++ [(s, q, (a + b) / 2)]) from by
        rw [gpInner, if_neg hnbl, hsq, hqs2]]
      rw [show (E.map (fun e => pairKey e.1 e.2.1)) ++ [pairKey s q] =
          (E ++ [(s, q, (a + b) / 2)]).map (fun e => pairKey e.1 e.2.1) from by simp]
      have hinv2 : EmitInv d (E ++ [(s, q, (a + b) / 2)]) := by
        constructor
        · intro e he
          rcases List.mem_append.mp he with h1 | h1
          · exact hinv.1 e h1
          · rw [show e = (s, q, (a + b) / 2) from by simpa using h1]
            exact ⟨hs, hq⟩
        · intro e he
          rcases List.mem_append.mp he with h1 | h1
          · exact hinv.2 e h1
          · rw [show e = (s, q, (a + b) / 2) from by simpa using h1]
            exact ⟨a, b, hsq, hqs2, rfl⟩
      obtain ⟨E2, hrun, hinv3, hcount⟩ := ih (E ++ [(s, q, (a + b) / 2)])
        (fun x hx => hqs x (by simp [hx])) (fun x hx => hqU x (by simp [hx])) hinv2
      refine ⟨E2, hrun, hinv3, ?_⟩
      intro x y
      rw [hcount x y, uCount_append_single]
      by_cases hxy : (s = x ∧ q = y) ∨ (s = y ∧ q = x)
      · have h0 : uCount E x y = 0 := by
          rcases hxy with ⟨h1, h2⟩ | ⟨h1, h2⟩
          · rw [← h1, ← h2]; exact hb
          · rw [← h2, ← h1, uCount_comm]; exact hb
        have hin : inKeys s ((q, l) :: rest) x y := by
          unfold inKeys
          rcases hxy with ⟨h1, h2⟩ | ⟨h1, h2⟩
          · exact Or.inl ⟨h1.symm, by simp [h2.symm]⟩
          · exact Or.inr ⟨h1.symm, by simp [h2.symm]⟩
        simp [h0, hxy, hin]
      · have hiff := inKeys_cons_iff s q l rest x y hxy
        by_cases h0 : uCount E x y = 0
        · simp [h0, hxy, hiff]
        · simp [h0, hxy]
    · -- already emitted: the visit is skipped
      have hbl : (pairKey s q ∈ E.map (fun e => pairKey e.1 e.2.1) ∨
          pairKey q s ∈ E.map (fun e => pairKey e.1 e.2.1)) :=
        (blocked_iff E s q hinv.1 hs hq).mpr hb
      rw [show gpInner d s ((q, l) :: rest) (E.map (fun e => pairKey e.1 e.2.1)) E =
          gpInner d s rest (E.map (fun e => pairKey e.1 e.2.1)) E from by
        rw [gpInner, if_pos hbl]]
      obtain ⟨E2, hrun, hinv2, hcount⟩ := ih E (fun x hx => hqs x (by simp [hx]))
        (fun x hx => hqU x (by simp [hx])) hinv
      refine ⟨E2, hrun, hinv2, ?_⟩
      intro x y
      rw [hcount x y]
      by_cases h0 : uCount E x y = 0
      · rw [if_pos h0, if_pos h0]
        have hxy : ¬((s = x ∧ q = y) ∨ (s = y ∧ q = x)) := by
          rintro (⟨h1, h2⟩ | ⟨h1, h2⟩)
          · exact hb (by rw [h1, h2]; exact h0)
          · exact hb (by rw [uCount_comm, h2, h1]; exact h0)
        exact if_congr (inKeys_cons_iff s q l rest x y hxy) rfl rfl
      · rw [if_neg h0, if_neg h0]

end CalcCutoff

namespace CalcCutoff

theorem gpOuter_spec (d : ScoreDict) (hwf : WFDict d) (hsym : SymmDict d)
    (hne : NonemptyCells d) (hnu : NoUnderscore d) :
    ∀ (entries : List (String × List (String × List ℚ)))
      (E : List (String × String × ℚ)),
    (∀ p ∈ entries, p ∈ d) →
    EmitInv d E →
    ∃ E2, gpOuter d entries (E.map (fun e => pairKey e.1 e.2.1)) E =
        some (E2.map (fun e => pairKey e.1 e.2.1), E2) ∧
      EmitInv d E2 ∧
      ∀ x y, uCount E2 x y =
        if uCount E x y = 0 then
          (if (x, y) ∈ pairsOf entries ∨ (y, x) ∈ pairsOf entries then 1 else 0)
        else uCount E x y := by
  intro entries
  induction entries with
  | nil =>
    intro E hsub hinv
    refine ⟨E, rfl, hinv, ?_⟩
    intro x y
    by_cases h : uCount E x y = 0 <;> simp [h, pairsOf]
  | cons p rest ih =>
    intro E hsub hinv
    rcases p with ⟨s, inner⟩
    have hpd : (s, inner) ∈ d := hsub (s, inner) (by simp)
    have hsU : '_' ∉ s.data := (hnu (s, inner) hpd).1
    have hqs : ∀ x ∈ inner, (s, x.1) ∈ pairsOf d :=
      fun x hx => mem_pairsOf_of_entry d s inner hpd x hx
    have hqU : ∀ x ∈ inner, '_' ∉ x.1.data :=
      fun x hx => (hnu (s, inner) hpd).2 x hx
    obtain ⟨Emid, hrunI, hinvI, hcountI⟩ :=
      gpInner_spec d hwf hsym hne s hsU inner E hqs hqU hinv
    rw [show gpOuter d ((s, inner) :: rest) (E.map (fun e => pairKey e.1 e.2.1)) E =
        gpOuter d rest (Emid.map (fun e => pairKey e.1 e.2.1)) Emid from by
      rw [gpOuter, hrunI]]
    obtain ⟨E2, hrunO, hinvO, hcountO⟩ :=
      ih Emid (fun p hp => hsub p (by simp [hp])) hinvI
    refine ⟨E2, hrunO, hinvO, ?_⟩
    intro x y
    rw [hcountO x y, hcountI x y]
    by_cases h0 : uCount E x y = 0
    · by_cases hH : inKeys s inner x y
      · have hcond : (x, y) ∈ pairsOf ((s, inner) :: rest) ∨
            (y, x) ∈ pairsOf ((s, inner) :: rest) := by
          rcases hH with ⟨h1, h2⟩ | ⟨h1, h2⟩
          · exact Or.inl ((mem_pairsOf_cons (s, inner) rest x y).mpr (Or.inl ⟨h1, h2⟩))
          · exact Or.inr ((mem_pairsOf_cons (s, inner) rest y x).mpr (Or.inl ⟨h1, h2⟩))
        simp [h0, hH, hcond]
      · have hiff : ((x, y) ∈ pairsOf rest ∨ (y, x) ∈ pairsOf rest) ↔
            ((x, y) ∈ pairsOf ((s, inner) :: rest) ∨
             (y, x) ∈ pairsOf ((s, inner) :: rest)) := by
          constructor
          · rintro (h | h)
            · exact Or.inl ((mem_pairsOf_cons (s, inner) rest x y).mpr (Or.inr h))
            · exact Or.inr ((mem_pairsOf_cons (s, inner) rest y x).mpr (Or.inr h))
          · rintro (h | h)
            · rcases (mem_pairsOf_cons (s, inner) rest x y).mp h with hhd | hrest
              · exact absurd (Or.inl hhd) hH
              · exact Or.inl hrest
            · rcases (mem_pairsOf_cons (s, inner) rest y x).mp h with hhd | hrest
              · exact absurd (Or.inr hhd) hH
              · exact Or.inr hrest
        simp only [h0, if_pos rfl, hH, if_false, if_true]
        exact if_congr hiff rfl rfl
    · simp [h0]

/-- Claim C4 (amended): provided every species name in the nested score
dictionary is free of underscores (so the concatenated `donePair` keys are
unambiguous — the counterexample above shows the claim fails otherwise), the
dictionary has python-dict key uniqueness, both directions of every pair are
present and every score cell is nonempty, `getGroupPairs` emits exactly one
value for each unordered species pair appearing in the dictionary — never
both directions — and each emitted value is the arithmetic mean of the first
s-versus-q score and the first q-versus-s score. -/
theorem C4_unordered_pairs (d : ScoreDict) (hwf : WFDict d) (hsym : SymmDict d)
    (hne : NonemptyCells d) (hnu : NoUnderscore d) :
    ∃ E, getGroupPairsT d = some E ∧
      getGroupPairs d = some (E.map (fun e => e.2.2)) ∧
      (∀ p ∈ pairsOf d, uCount E p.1 p.2 = 1) ∧
      (∀ e ∈ E, ∃ a b, scoreGet d e.1 e.2.1 = some a ∧
        scoreGet d e.2.1 e.1 = some b ∧ e.2.2 = (a + b) / 2) := by
  obtain ⟨E2, hrun, hinv, hcount⟩ := gpOuter_spec d hwf hsym hne hnu d
    [] (fun p hp => hp) ⟨by simp, by simp⟩
  have hrun2 : gpOuter d d [] [] = some (E2.map (fun e => pairKey e.1 e.2.1), E2) := by
    simpa using hrun
  refine ⟨E2, ?_, ?_, ?_, hinv.2⟩
  · unfold getGroupPairsT
    rw [hrun2]
    rfl
  · unfold getGroupPairs getGroupPairsT
    rw [hrun2]
    rfl
  · intro p hp
    have h := hcount p.1 p.2
    have hz : uCount [] p.1 p.2 = 0 := rfl
    rw [hz, if_pos rfl] at h
    rw [h, if_pos (Or.inl (by simpa using hp))]

/-- Witness for the amended C4 at a concrete two-species dictionary. -/
theorem C4_unordered_pairs_witness :
    WFDict [("AAA", [("BBB", [(1 : ℚ)])]), ("BBB", [("AAA", [2])])] ∧
    SymmDict [("AAA", [("BBB", [(1 : ℚ)])]), ("BBB", [("AAA", [2])])] ∧
    NonemptyCells [("AAA", [("BBB", [(1 : ℚ)])]), ("BBB", [("AAA", [2])])] ∧
    NoUnderscore [("AAA", [("BBB", [(1 : ℚ)])]), ("BBB", [("AAA", [2])])] ∧
    (∃ E, getGroupPairsT [("AAA", [("BBB", [(1 : ℚ)])]), ("BBB", [("AAA", [2])])] =
        some E ∧
      getGroupPairs [("AAA", [("BBB", [(1 : ℚ)])]), ("BBB", [("AAA", [2])])] =
        some (E.map (fun e => e.2.2)) ∧
      (∀ p ∈ pairsOf [("AAA", [("BBB", [(1 : ℚ)])]), ("BBB", [("AAA", [2])])],
        uCount E p.1 p.2 = 1) ∧
      (∀ e ∈ E, ∃ a b,
        scoreGet [("AAA", [("BBB", [(1 : ℚ)])]), ("BBB", [("AAA", [2])])] e.1 e.2.1 =
          some a ∧
        scoreGet [("AAA", [("BBB", [(1 : ℚ)])]), ("BBB", [("AAA", [2])])] e.2.1 e.1 =
          some b ∧ e.2.2 = (a + b) / 2)) :=
  ⟨by decide, by decide, by decide, by decide,
    C4_unordered_pairs [("AAA", [("BBB", [(1 : ℚ)])]), ("BBB", [("AAA", [2])])]
      (by decide) (by decide) (by decide) (by decide)⟩

end CalcCutoff
